import Mathlib

/-
Shallow embedding of the lease-lock key-value store of
`src/cp93pytools/easySQLite.py` (class `KeyValueSQLiteTable` and the row
primitives of `IndexedSQLiteTable` it uses).

Modelling conventions:
* The SQLite table created by `KeyValueSQLiteTable.__init__` has columns
  `key` (TEXT PRIMARY KEY), `value` (TEXT, nullable), `lock_token`
  (double NOT NULL), `locked_until` (double NOT NULL).  It is modelled as
  an association list `Table` of `(key, Row)` pairs; the primary key keeps
  at most one row per key, and every mutation below preserves that.
* Python floats (tokens, clock readings, durations) are modelled as `ℚ`.
* The `value` TEXT cell always holds `json.dumps(v)` for some
  JSON-representable `v` (the code never writes anything else), and
  `json.dumps` is injective on such values and never returns the empty
  string; so the cell is modelled by its parsed content `Option JVal`,
  `none` standing for SQL NULL.  `json.loads(s or 'null')` then becomes
  `Option.getD · JVal.null`.
* `time.time()` is modelled by an ambient clock `clock : Nat → ℚ` read at
  an ever-increasing tick counter carried in the state `St`; each call of
  `time.time()` consumes one tick, in the exact evaluation order of the
  Python source (including short-circuit `or`).  `time.sleep` reads no
  clock and has no observable effect on the state.
* Python exceptions are modelled by `Except Err`; every stateful
  operation has the shape `St → Except Err α × St`, the state being
  returned on both the normal and the exceptional path (a `try/finally`
  needs the state of the exceptional path).
-/

namespace EasySQLite

/-- JSON-representable values (the payloads accepted by `json.dumps`). -/
inductive JVal where
  | null : JVal
  | bool : Bool → JVal
  | num : ℚ → JVal
  | str : String → JVal
  | arr : List JVal → JVal

mutual

def JVal.decEq : (a b : JVal) → Decidable (a = b)
  | .null, .null => .isTrue rfl
  | .bool x, .bool y =>
    if h : x = y then .isTrue (by rw [h]) else .isFalse (fun e => h (JVal.bool.inj e))
  | .num x, .num y =>
    if h : x = y then .isTrue (by rw [h]) else .isFalse (fun e => h (JVal.num.inj e))
  | .str x, .str y =>
    if h : x = y then .isTrue (by rw [h]) else .isFalse (fun e => h (JVal.str.inj e))
  | .arr x, .arr y =>
    match JVal.decEqList x y with
    | .isTrue h => .isTrue (by rw [h])
    | .isFalse h => .isFalse (fun e => h (JVal.arr.inj e))
  | .null, .bool _ => .isFalse (fun e => JVal.noConfusion e)
  | .null, .num _ => .isFalse (fun e => JVal.noConfusion e)
  | .null, .str _ => .isFalse (fun e => JVal.noConfusion e)
  | .null, .arr _ => .isFalse (fun e => JVal.noConfusion e)
  | .bool _, .null => .isFalse (fun e => JVal.noConfusion e)
  | .bool _, .num _ => .isFalse (fun e => JVal.noConfusion e)
  | .bool _, .str _ => .isFalse (fun e => JVal.noConfusion e)
  | .bool _, .arr _ => .isFalse (fun e => JVal.noConfusion e)
  | .num _, .null => .isFalse (fun e => JVal.noConfusion e)
  | .num _, .bool _ => .isFalse (fun e => JVal.noConfusion e)
  | .num _, .str _ => .isFalse (fun e => JVal.noConfusion e)
  | .num _, .arr _ => .isFalse (fun e => JVal.noConfusion e)
  | .str _, .null => .isFalse (fun e => JVal.noConfusion e)
  | .str _, .bool _ => .isFalse (fun e => JVal.noConfusion e)
  | .str _, .num _ => .isFalse (fun e => JVal.noConfusion e)
  | .str _, .arr _ => .isFalse (fun e => JVal.noConfusion e)
  | .arr _, .null => .isFalse (fun e => JVal.noConfusion e)
  | .arr _, .bool _ => .isFalse (fun e => JVal.noConfusion e)
  | .arr _, .num _ => .isFalse (fun e => JVal.noConfusion e)
  | .arr _, .str _ => .isFalse (fun e => JVal.noConfusion e)

def JVal.decEqList : (xs ys : List JVal) → Decidable (xs = ys)
  | [], [] => .isTrue rfl
  | [], _ :: _ => .isFalse (fun e => List.noConfusion e)
  | _ :: _, [] => .isFalse (fun e => List.noConfusion e)
  | x :: xs, y :: ys =>
    match JVal.decEq x y, JVal.decEqList xs ys with
    | .isTrue h1, .isTrue h2 => .isTrue (by rw [h1, h2])
    | .isFalse h1, _ => .isFalse (fun e => h1 (List.cons.inj e).1)
    | _, .isFalse h2 => .isFalse (fun e => h2 (List.cons.inj e).2)

end

instance : DecidableEq JVal := JVal.decEq

instance {ε α : Type} [DecidableEq ε] [DecidableEq α] :
    DecidableEq (Except ε α) := fun a b =>
  match a, b with
  | .error x, .error y =>
    if h : x = y then .isTrue (by rw [h])
    else .isFalse (fun e => h (Except.error.inj e))
  | .ok x, .ok y =>
    if h : x = y then .isTrue (by rw [h])
    else .isFalse (fun e => h (Except.ok.inj e))
  | .error _, .ok _ => .isFalse (fun e => Except.noConfusion e)
  | .ok _, .error _ => .isFalse (fun e => Except.noConfusion e)

/-- One row of the key-value table, minus its primary key.
`value` models the nullable TEXT cell by its parsed JSON content. -/
structure Row where
  value : Option JVal
  lock_token : ℚ
  locked_until : ℚ
deriving DecidableEq

/-- The table: an association list keyed by the TEXT primary key. -/
abbrev Table := List (String × Row)

/-- Errors raised by the embedded operations. -/
inductive Err where
  | keyError (k : String)
  | tokenError (k : String) (token : ℚ)
  | timeoutError (timeout : Option ℚ)
  | integrityError
  | assertionError
deriving DecidableEq

/-- The kwargs of `update_row` / `insert_row` / `set_row`: each field is
present or absent.  `value := some c` writes the cell `c` (itself
`Option JVal`, `none` = SQL NULL). -/
structure Patch where
  value : Option (Option JVal) := none
  lock_token : Option ℚ := none
  locked_until : Option ℚ := none
deriving DecidableEq

/-- Apply an UPDATE's kwargs to a row: mentioned columns are overwritten,
the others kept. -/
def applyPatch (r : Row) (p : Patch) : Row where
  value := p.value.getD r.value
  lock_token := p.lock_token.getD r.lock_token
  locked_until := p.locked_until.getD r.locked_until

/-- `SELECT ... WHERE key=?`: the (unique) row stored under `k`, as read by
`unique_dict` / `_current_lock`. -/
def getRow : Table → String → Option Row
  | [], _ => none
  | (k', r) :: t, k => if k' = k then some r else getRow t k

/-- `IndexedSQLiteTable.update_row` on index `['key']`: UPDATE every row
matching the key (at most one, by the primary key) and report whether the
rowcount was positive. -/
def update_row : Table → String → Patch → Table × Bool
  | [], _, _ => ([], false)
  | (k', r) :: t, k, p =>
    let rest := update_row t k p
    if k' = k then ((k', applyPatch r p) :: rest.1, true)
    else ((k', r) :: rest.1, rest.2)

/-- `SQLiteTable.insert_row`: INSERT with exactly the given kwargs.  The
schema makes `lock_token` and `locked_until` NOT NULL with no default, and
`key` a primary key, so a missing lock field or a duplicate key raises
`sqlite3.IntegrityError`. -/
def insert_row (t : Table) (k : String) (p : Patch) : Except Err Table :=
  match p.lock_token, p.locked_until with
  | some lt, some lu =>
    if (getRow t k).isSome then .error .integrityError
    else .ok (t ++ [(k, ⟨p.value.getD none, lt, lu⟩)])
  | _, _ => .error .integrityError

/-- `IndexedSQLiteTable.set_row` on index `['key']`: UPDATE, and INSERT
only when the UPDATE matched no row. -/
def set_row (t : Table) (k : String) (p : Patch) : Except Err Unit × Table :=
  let u := update_row t k p
  if u.2 then (.ok (), u.1)
  else
    match insert_row t k p with
    | .ok t2 => (.ok (), t2)
    | .error e => (.error e, t)

/-- `IndexedSQLiteTable.del_row` on index `['key']`: DELETE matching rows,
returning the rowcount. -/
def del_row : Table → String → Nat × Table
  | [], _ => (0, [])
  | (k', r) :: t, k =>
    let rest := del_row t k
    if k' = k then (rest.1 + 1, rest.2) else (rest.1, (k', r) :: rest.2)

/-! ### Execution state: the table plus the tick counter of the clock -/

/-- Execution state: the persisted table and how many `time.time()` calls
have happened so far.  The ambient `clock : Nat → ℚ` gives the value
returned by the `i`-th call. -/
structure St where
  table : Table
  tick : Nat
deriving DecidableEq

/-- One `time.time()` call. -/
def readTime (clock : Nat → ℚ) (s : St) : ℚ × St :=
  (clock s.tick, ⟨s.table, s.tick + 1⟩)

/-- `KeyValueSQLiteTable._current_lock`: the lock columns of the row under
`k` (returning the whole row loses nothing: the callers only read the lock
columns from it). -/
def current_lock (t : Table) (k : String) : Option Row :=
  getRow t k

/-- `KeyValueSQLiteTable._ask_access(key, token, max_duration)`:
read the lock row; if the eligibility test passes (`not d or
d['lock_token'] == 0 or time.time() > d['locked_until'] or
d['lock_token'] == token`, with Python's short-circuit `or`, so the clock
is read only when the first two disjuncts fail), upsert
`lock_token = token`, `locked_until = time.time() + max_duration`, re-read
and grant iff the re-read shows `lock_token == token`. -/
def ask_access (clock : Nat → ℚ) (k : String) (token max_duration : ℚ)
    (s : St) : Except Err Bool × St :=
  let d := current_lock s.table k
  let mr : Bool × St :=
    match d with
    | none => (true, s)
    | some r =>
      if r.lock_token = 0 then (true, s)
      else
        let (now, s') := readTime clock s
        if now > r.locked_until then (true, s')
        else if r.lock_token = token then (true, s')
        else (false, s')
  let may_request := mr.1
  let s1 := mr.2
  if may_request then
    let (now2, s2) := readTime clock s1
    match set_row s2.table k ⟨none, some token, some (now2 + max_duration)⟩ with
    | (.error e, t') => (.error e, ⟨t', s2.tick⟩)
    | (.ok _, t') =>
      match current_lock t' k with
      | some r2 =>
        if r2.lock_token = token then (.ok true, ⟨t', s2.tick⟩)
        else (.ok false, ⟨t', s2.tick⟩)
      | none => (.ok false, ⟨t', s2.tick⟩)
  else (.ok false, s1)

/-- `KeyValueSQLiteTable._unlock(key, token, max_duration)`: read the row;
if absent, only a warning is logged; otherwise `remaining` is computed
(one clock read; a negative value only logs a warning) and, if
`lock_token == token`, `set_row(key, lock_token=0)` resets the lock. -/
def unlock (clock : Nat → ℚ) (k : String) (token max_duration : ℚ)
    (s : St) : Except Err Unit × St :=
  match current_lock s.table k with
  | none => (.ok (), s)
  | some r =>
    let (_, s') := readTime clock s
    if r.lock_token = token then
      match set_row s'.table k ⟨none, some 0, none⟩ with
      | (res, t') => (res, ⟨t', s'.tick⟩)
    else (.ok (), s')

/-- The `for key in keys: self._unlock(key, token, md)` loops in the
`finally` blocks of the three context managers. -/
def unlockAll (clock : Nat → ℚ) (keys : List String) (token max_duration : ℚ)
    (s : St) : Except Err Unit × St :=
  match keys with
  | [] => (.ok (), s)
  | k :: ks =>
    match unlock clock k token max_duration s with
    | (.error e, s') => (.error e, s')
    | (.ok _, s') => unlockAll clock ks token max_duration s'

/-- The list comprehension
`[self._ask_access(key, token=token, max_duration=max_duration) for key in keys]`
of `ask_token`: every key is attempted, in order, with no short-circuit. -/
def attemptAll (clock : Nat → ℚ) (keys : List String) (token max_duration : ℚ)
    (s : St) : Except Err (List Bool) × St :=
  match keys with
  | [] => (.ok [], s)
  | k :: ks =>
    match ask_access clock k token max_duration s with
    | (.error e, s') => (.error e, s')
    | (.ok b, s') =>
      match attemptAll clock ks token max_duration s' with
      | (.error e, s'') => (.error e, s'')
      | (.ok bs, s'') => (.ok (b :: bs), s'')

/-- `KeyValueSQLiteTable.ask_token(*keys, max_duration, _unlock)` as a
context manager: `token = 1 + random.random()` is passed in as `token`
(the caller of the embedding supplies the random draw, a float in
`[1, 2)`); the body receives `token if gained_access else None`, and the
`finally` block releases every key when `_unlock` is set — also when the
body or the acquisition raised. -/
def ask_token {α : Type} (clock : Nat → ℚ) (keys : List String)
    (max_duration : ℚ) (unl : Bool) (token : ℚ)
    (body : Option ℚ → St → Except Err α × St) (s : St) : Except Err α × St :=
  if keys.isEmpty then (.error .assertionError, s)
  else
    let (racq, s1) := attemptAll clock keys token max_duration s
    let br : Except Err α × St :=
      match racq with
      | .error e => (.error e, s1)
      | .ok bs => body (if bs.all (fun b => b) then some token else none) s1
    let (rb, s2) := br
    let fr : Except Err Unit × St :=
      if unl then unlockAll clock keys token max_duration s2 else (.ok (), s2)
    match fr with
    | (.error e, s3) => (.error e, s3)
    | (.ok _, s3) => (rb, s3)

/-- The `for key in keys: if not self._ask_access(key, token=token,
max_duration=0): raise EasySQLiteTokenError(key, token)` loop of
`assert_token`: it stops at the first failing key. -/
def acquireLoop (clock : Nat → ℚ) (keys : List String) (token : ℚ)
    (s : St) : Except Err Unit × St :=
  match keys with
  | [] => (.ok (), s)
  | k :: ks =>
    match ask_access clock k token 0 s with
    | (.error e, s') => (.error e, s')
    | (.ok true, s') => acquireLoop clock ks token s'
    | (.ok false, s') => (.error (.tokenError k token), s')

/-- `KeyValueSQLiteTable.assert_token(*keys, token, _unlock)` as a context
manager: verify every key with `max_duration = 0`, raising
`EasySQLiteTokenError` on the first failure; the `finally` releases every
key when `_unlock` is set, on the normal and the exceptional path alike. -/
def assert_token {α : Type} (clock : Nat → ℚ) (keys : List String)
    (token : ℚ) (unl : Bool) (body : St → Except Err α × St) (s : St) :
    Except Err α × St :=
  if keys.isEmpty then (.error .assertionError, s)
  else
    let (racq, s1) := acquireLoop clock keys token s
    let br : Except Err α × St :=
      match racq with
      | .error e => (.error e, s1)
      | .ok _ => body s1
    let (rb, s2) := br
    let fr : Except Err Unit × St :=
      if unl then unlockAll clock keys token 0 s2 else (.ok (), s2)
    match fr with
    | (.error e, s3) => (.error e, s3)
    | (.ok _, s3) => (rb, s3)

/-! ### The key-value operations -/

/-- `KeyValueSQLiteTable.__getitem__`: `KeyError` iff no row exists;
otherwise `json.loads(value or 'null')`. -/
def getItem (t : Table) (k : String) : Except Err JVal :=
  match getRow t k with
  | none => .error (.keyError k)
  | some r => .ok (r.value.getD .null)

/-- `KeyValueSQLiteTable.get(key, default=None)`: `self[key]`, with only
`KeyError` turned into `default`.  Python's default `None` is the same
object as a parsed JSON `null`, i.e. `JVal.null` here. -/
def get (t : Table) (k : String) (default : JVal) : Except Err JVal :=
  match getItem t k with
  | .error (.keyError _) => .ok default
  | .error e => .error e
  | .ok v => .ok v

/-- `KeyValueSQLiteTable.__set_assuming_token`: `set_row(key,
value=json.dumps(value))` on the index `['key']`. -/
def set_assuming_token (t : Table) (k : String) (v : JVal) :
    Except Err Unit × Table :=
  set_row t k ⟨some (some v), none, none⟩

/-- `KeyValueSQLiteTable.__del_assuming_token`: `del_row(key)` on the
index `['key']`. -/
def del_assuming_token (t : Table) (k : String) : Nat × Table :=
  del_row t k

/-- `KeyValueSQLiteTable.set(key, value, token)`: verify the token with
`assert_token` (unlocking on exit), then write the value. -/
def set (clock : Nat → ℚ) (k : String) (v : JVal) (token : ℚ) (s : St) :
    Except Err Unit × St :=
  assert_token clock [k] token true
    (fun s' =>
      match set_assuming_token s'.table k v with
      | (res, t') => (res, ⟨t', s'.tick⟩))
    s

/-- `KeyValueSQLiteTable.delete(key, token)`: verify the token with
`assert_token(_unlock=False)`, then delete the row. -/
def delete (clock : Nat → ℚ) (k : String) (token : ℚ) (s : St) :
    Except Err Unit × St :=
  assert_token clock [k] token false
    (fun s' =>
      match del_assuming_token s'.table k with
      | (_, t') => (.ok (), ⟨t', s'.tick⟩))
    s

/-- `KeyValueSQLiteTable.ask_set(key, value)`: `ask_token` with the
default `max_duration=0.5`; inside the `with` block, `return False` when
no token was gained, else write the value and fall through to the final
`return False` — both paths of the Python source return `False`. -/
def ask_set (clock : Nat → ℚ) (k : String) (v : JVal) (token : ℚ) (s : St) :
    Except Err Bool × St :=
  ask_token clock [k] (1/2) true token
    (fun tok s' =>
      match tok with
      | none => (.ok false, s')
      | some _ =>
        match set_assuming_token s'.table k v with
        | (.error e, t') => (.error e, ⟨t', s'.tick⟩)
        | (.ok _, t') => (.ok false, ⟨t', s'.tick⟩))
    s

/-- `KeyValueSQLiteTable.ask_del(key)`: `ask_token(key, _unlock=False)`;
`return False` when no token was gained, else delete the row and fall
through to the final `return False`. -/
def ask_del (clock : Nat → ℚ) (k : String) (token : ℚ) (s : St) :
    Except Err Bool × St :=
  ask_token clock [k] (1/2) false token
    (fun tok s' =>
      match tok with
      | none => (.ok false, s')
      | some _ =>
        match del_assuming_token s'.table k with
        | (_, t') => (.ok false, ⟨t', s'.tick⟩))
    s

/-! ### The blocking wait -/

/-- `create_deadline(timeout)`: `float('inf')` when `timeout is None`
(modelled as `none`; no clock read), else `time.time() + timeout`. -/
def create_deadline (clock : Nat → ℚ) (timeout : Option ℚ) (s : St) :
    Option ℚ × St :=
  match timeout with
  | none => (none, s)
  | some tv =>
    let (now, s') := readTime clock s
    (some (now + tv), s')

/-- `now > deadline`, where `none` is `float('inf')`. -/
def beyond (now : ℚ) (deadline : Option ℚ) : Bool :=
  match deadline with
  | none => false
  | some d => now > d

/-- The `while not self._ask_access(key, token, max_duration): if
time.time() > deadline: raise EasySQLiteTimeoutError(timeout);
time.sleep(request_every)` loop of `wait_token`, for one key.  `fuel`
bounds the number of iterations of the model (the Python loop is
unbounded); `none` means the fuel ran out with the loop still polling.
`time.sleep` reads no clock and changes nothing. -/
def waitLoop (clock : Nat → ℚ) (k : String) (token max_duration : ℚ)
    (timeout : Option ℚ) (deadline : Option ℚ) :
    Nat → St → Option (Except Err Unit × St)
  | 0, _ => none
  | fuel + 1, s =>
    match ask_access clock k token max_duration s with
    | (.error e, s') => some (.error e, s')
    | (.ok true, s') => some (.ok (), s')
    | (.ok false, s') =>
      let (now, s'') := readTime clock s'
      if beyond now deadline then some (.error (.timeoutError timeout), s'')
      else waitLoop clock k token max_duration timeout deadline fuel s''

/-- The `for key in keys: deadline = create_deadline(timeout); while ...`
acquisition phase of `wait_token`: each key is processed independently, in
order, with a deadline computed fresh at the start of that key. -/
def waitKeys (clock : Nat → ℚ) (keys : List String) (token max_duration : ℚ)
    (timeout : Option ℚ) (fuel : Nat) (s : St) :
    Option (Except Err Unit × St) :=
  match keys with
  | [] => some (.ok (), s)
  | k :: ks =>
    let (deadline, s1) := create_deadline clock timeout s
    match waitLoop clock k token max_duration timeout deadline fuel s1 with
    | none => none
    | some (.error e, s2) => some (.error e, s2)
    | some (.ok _, s2) => waitKeys clock ks token max_duration timeout fuel s2

/-- `KeyValueSQLiteTable.wait_token(*keys, max_duration, request_every,
timeout, _token, _unlock)` as a context manager: acquire every key by
polling (raising `EasySQLiteTimeoutError` past a key's deadline), yield
the token to the body, and release every key in the `finally` when
`_unlock` is set.  `request_every` only feeds `time.sleep`. -/
def wait_token {α : Type} (clock : Nat → ℚ) (keys : List String)
    (max_duration request_every : ℚ) (timeout : Option ℚ) (token : ℚ)
    (unl : Bool) (fuel : Nat) (body : ℚ → St → Except Err α × St) (s : St) :
    Option (Except Err α × St) :=
  if keys.isEmpty then some (.error .assertionError, s)
  else
    match waitKeys clock keys token max_duration timeout fuel s with
    | none => none
    | some (racq, s1) =>
      let br : Except Err α × St :=
        match racq with
        | .error e => (.error e, s1)
        | .ok _ => body token s1
      let (rb, s2) := br
      let fr : Except Err Unit × St :=
        if unl then unlockAll clock keys token max_duration s2 else (.ok (), s2)
      some (match fr with
        | (.error e, s3) => (.error e, s3)
        | (.ok _, s3) => (rb, s3))

/-! ### Characterization of Acquire-one -/

/-- The eligibility test of step 2 of Acquire-one, exactly as the claim
reads it: no row exists for the key, or the stored `lock_token` equals
`0`, or the current time at the initial read exceeds `locked_until`, or
the stored `lock_token` equals the presented token. -/
def eligible (clock : Nat → ℚ) (s : St) (k : String) (token : ℚ) : Bool :=
  match getRow s.table k with
  | none => true
  | some r =>
    if r.lock_token = 0 then true
    else if clock s.tick > r.locked_until then true
    else if r.lock_token = token then true
    else false

/-- State reached right after the eligibility test (its short-circuit
`or` consumes one clock tick exactly when a row exists whose lock token
is nonzero). -/
def stepState (s : St) (k : String) : St :=
  match getRow s.table k with
  | none => s
  | some r => if r.lock_token = 0 then s else ⟨s.table, s.tick + 1⟩

/-- The lock token shown by the step-4 re-read of Acquire-one, performed
on the table as upserted by step 3. -/
def rereadToken (clock : Nat → ℚ) (s : St) (k : String)
    (token max_duration : ℚ) : Option ℚ :=
  let s1 := stepState s k
  let now2 := clock s1.tick
  let t' := (set_row s1.table k ⟨none, some token, some (now2 + max_duration)⟩).2
  (getRow t' k).map Row.lock_token

/-- A concrete clock for the witness instances below. -/
def clk0 : Nat → ℚ := fun _ => 0

/-- State right after a granted Acquire-one: lock upserted and one more
clock tick consumed by the upsert's `time.time()`. -/
def grantState (clock : Nat → ℚ) (s : St) (k : String) (token md : ℚ) : St :=
  ⟨(set_row (stepState s k).table k
      ⟨none, some token, some (clock (stepState s k).tick + md)⟩).2,
    (stepState s k).tick + 1⟩

/-- A second concrete clock for witness instances. -/
def clkN : Nat → ℚ := fun n => (n : ℚ)

/-! ### Lemmas -/

/-! ### Basic lemmas about the row primitives -/

theorem update_row_fst_of_getRow_none {t : Table} {k : String} (p : Patch)
    (h : getRow t k = none) : (update_row t k p).1 = t := by
  induction t with
  | nil => rfl
  | cons q t ih =>
    obtain ⟨k', r⟩ := q
    by_cases hk : k' = k
    · simp [getRow, hk] at h
    · simp only [getRow, hk, if_neg] at h
      simp [update_row, hk, ih h]

theorem update_row_snd_eq {t : Table} {k : String} (p : Patch) :
    (update_row t k p).2 = (getRow t k).isSome := by
  induction t with
  | nil => rfl
  | cons q t ih =>
    obtain ⟨k', r⟩ := q
    by_cases hk : k' = k <;> simp [update_row, getRow, hk, ih]

theorem getRow_update_row_self {t : Table} {k : String} (p : Patch) :
    getRow (update_row t k p).1 k = (getRow t k).map (fun r => applyPatch r p) := by
  induction t with
  | nil => rfl
  | cons q t ih =>
    obtain ⟨k', r⟩ := q
    by_cases hk : k' = k <;> simp [update_row, getRow, hk, ih]

theorem getRow_update_row_ne {t : Table} {k k' : String} (p : Patch)
    (h : k' ≠ k) : getRow (update_row t k p).1 k' = getRow t k' := by
  induction t with
  | nil => rfl
  | cons q t ih =>
    obtain ⟨k0, r⟩ := q
    by_cases h0 : k0 = k
    · subst h0
      simp [update_row, getRow, Ne.symm h, ih]
    · by_cases h1 : k0 = k' <;> simp [update_row, getRow, h0, h1, h, ih]

theorem getRow_append_self {t : Table} {k : String} (r : Row)
    (h : getRow t k = none) : getRow (t ++ [(k, r)]) k = some r := by
  induction t with
  | nil => simp [getRow]
  | cons q t ih =>
    obtain ⟨k', r'⟩ := q
    by_cases hk : k' = k
    · simp [getRow, hk] at h
    · simp only [getRow, hk, if_neg] at h
      simp [getRow, hk, ih h]

theorem getRow_append_ne {t : Table} {k k' : String} (r : Row)
    (h : k' ≠ k) : getRow (t ++ [(k, r)]) k' = getRow t k' := by
  induction t with
  | nil => simp [getRow, Ne.symm h]
  | cons q t ih =>
    obtain ⟨k0, r0⟩ := q
    by_cases h0 : k0 = k' <;> simp [getRow, h0, ih]

theorem getRow_del_row_self {t : Table} {k : String} :
    getRow (del_row t k).2 k = none := by
  induction t with
  | nil => rfl
  | cons q t ih =>
    obtain ⟨k', r⟩ := q
    by_cases hk : k' = k <;> simp [del_row, getRow, hk, ih]

theorem getRow_del_row_ne {t : Table} {k k' : String} (h : k' ≠ k) :
    getRow (del_row t k).2 k' = getRow t k' := by
  induction t with
  | nil => rfl
  | cons q t ih =>
    obtain ⟨k0, r⟩ := q
    by_cases h0 : k0 = k
    · subst h0
      simp [del_row, getRow, Ne.symm h, ih]
    · by_cases h1 : k0 = k' <;> simp [del_row, getRow, h0, h1, h, ih]

theorem set_row_lock_ok (t : Table) (k : String) (tok u : ℚ)
    (v : Option (Option JVal)) :
    (set_row t k ⟨v, some tok, some u⟩).1 = .ok () := by
  unfold set_row insert_row
  rcases h : getRow t k with _ | r
  · simp [update_row_snd_eq, h]
  · simp [update_row_snd_eq, h]

theorem getRow_set_row_lock (t : Table) (k : String) (tok u : ℚ) :
    (getRow (set_row t k ⟨none, some tok, some u⟩).2 k).map Row.lock_token
      = some tok := by
  unfold set_row insert_row
  rcases h : getRow t k with _ | r
  · simp [update_row_snd_eq, h, update_row_fst_of_getRow_none, getRow_append_self _ h]
  · simp [update_row_snd_eq, h, getRow_update_row_self, applyPatch]

/-- Closed-form characterization of `_ask_access`: when the eligibility
test passes, the upsert happens (with the clock value read after the
eligibility test) and the re-read necessarily shows the fresh token, so
access is granted; otherwise nothing is written and access is denied. -/
theorem ask_access_eq (clock : Nat → ℚ) (k : String) (token md : ℚ) (s : St) :
    ask_access clock k token md s =
      if eligible clock s k token then
        (.ok true,
          ⟨(set_row (stepState s k).table k
              ⟨none, some token, some (clock (stepState s k).tick + md)⟩).2,
            (stepState s k).tick + 1⟩)
      else (.ok false, ⟨s.table, s.tick + 1⟩) := by
  unfold ask_access eligible stepState current_lock readTime
  rcases h : getRow s.table k with _ | r
  · simp only [h]
    have hok := set_row_lock_ok s.table k token (clock s.tick + md) none
    have hre := getRow_set_row_lock s.table k token (clock s.tick + md)
    rcases hsr : set_row s.table k ⟨none, some token, some (clock s.tick + md)⟩ with ⟨res, t'⟩
    rw [hsr] at hok hre
    simp only at hok hre
    subst hok
    simp only
    rcases hg : getRow t' k with _ | r2
    · rw [hg] at hre; simp at hre
    · rw [hg] at hre
      simp only [Option.map_some'] at hre
      simp [hg, Option.some.inj hre]
  · simp only [h]
    by_cases h0 : r.lock_token = 0
    · simp only [h0, if_pos, if_true]
      have hok := set_row_lock_ok s.table k token (clock s.tick + md) none
      have hre := getRow_set_row_lock s.table k token (clock s.tick + md)
      rcases hsr : set_row s.table k ⟨none, some token, some (clock s.tick + md)⟩ with ⟨res, t'⟩
      rw [hsr] at hok hre
      simp only at hok hre
      subst hok
      rcases hg : getRow t' k with _ | r2
      · rw [hg] at hre; simp at hre
      · rw [hg] at hre
        simp only [Option.map_some'] at hre
        simp [h0, hg, Option.some.inj hre]
    · by_cases h1 : clock s.tick > r.locked_until
      · have hok := set_row_lock_ok s.table k token (clock (s.tick + 1) + md) none
        have hre := getRow_set_row_lock s.table k token (clock (s.tick + 1) + md)
        rcases hsr : set_row s.table k ⟨none, some token, some (clock (s.tick + 1) + md)⟩ with ⟨res, t'⟩
        rw [hsr] at hok hre
        simp only at hok hre
        subst hok
        rcases hg : getRow t' k with _ | r2
        · rw [hg] at hre; simp at hre
        · rw [hg] at hre
          simp only [Option.map_some'] at hre
          simp [h0, h1, hsr, hg, Option.some.inj hre]
      · by_cases h2 : r.lock_token = token
        · have h3 : ¬ token = 0 := fun e => h0 (h2.trans e)
          have hok := set_row_lock_ok s.table k token (clock (s.tick + 1) + md) none
          have hre := getRow_set_row_lock s.table k token (clock (s.tick + 1) + md)
          rcases hsr : set_row s.table k ⟨none, some token, some (clock (s.tick + 1) + md)⟩ with ⟨res, t'⟩
          rw [hsr] at hok hre
          simp only at hok hre
          subst hok
          rcases hg : getRow t' k with _ | r2
          · rw [hg] at hre; simp at hre
          · rw [hg] at hre
            simp only [Option.map_some'] at hre
            simp [h0, h1, h2, h3, hsr, hg, Option.some.inj hre]
        · simp [h0, h1, h2]

/-- C1: Acquire-one (`_ask_access`) returns granted = true if and only if
both (a) the eligibility test holds at the initial read — no row exists for
the key, or the stored `lock_token` equals `0`, or the current time exceeds
`locked_until`, or the stored `lock_token` equals the presented token — and
(b) the re-read performed after the upsert shows `lock_token` equal to the
presented token; when the eligibility test fails, it returns false without
performing any write (the table is unchanged). -/
theorem ask_access_grant_iff (clock : Nat → ℚ) (k : String) (token md : ℚ)
    (s : St) :
    ((ask_access clock k token md s).1 = .ok true ↔
      (eligible clock s k token = true ∧
        rereadToken clock s k token md = some token)) ∧
    (eligible clock s k token = false →
      (ask_access clock k token md s).1 = .ok false ∧
      (ask_access clock k token md s).2.table = s.table) := by
  rw [ask_access_eq]
  by_cases he : eligible clock s k token
  · simp [he, rereadToken, getRow_set_row_lock]
  · simp [he]

theorem ask_access_grant_iff_witness :
    (ask_access clk0 "k" 5 0 ⟨[("k", ⟨none, 7, 100⟩)], 0⟩).1 = .ok false ∧
    (ask_access clk0 "k" 5 0 ⟨[("k", ⟨none, 7, 100⟩)], 0⟩).2.table
      = [("k", ⟨none, 7, 100⟩)] :=
  (ask_access_grant_iff clk0 "k" 5 0 ⟨[("k", ⟨none, 7, 100⟩)], 0⟩).2 (by decide)

theorem unlock_eq (clock : Nat → ℚ) (k : String) (token md : ℚ) (s : St) :
    unlock clock k token md s =
      match getRow s.table k with
      | none => (.ok (), s)
      | some r =>
        if r.lock_token = token then
          (.ok (), ⟨(update_row s.table k ⟨none, some 0, none⟩).1, s.tick + 1⟩)
        else (.ok (), ⟨s.table, s.tick + 1⟩) := by
  unfold unlock current_lock readTime set_row
  rcases h : getRow s.table k with _ | r
  · simp
  · by_cases ht : r.lock_token = token
    · simp [ht, update_row_snd_eq, h]
    · simp [ht]

/-- C2: Release-one (`_unlock`) resets `lock_token` to the unlocked
sentinel `0` only when the stored `lock_token` equals the presented token,
leaving `value` and `locked_until` unchanged; if the row is absent or the
stored `lock_token` differs from the presented token, no state is changed
and no exception is raised (the call always returns `ok`), so releasing
twice — the last conjunct — is a no-op. -/
theorem unlock_spec (clock : Nat → ℚ) (k : String) (token md : ℚ) (s : St)
    (h : token ≠ 0) :
    ((unlock clock k token md s).1 = .ok ()) ∧
    (∀ k', k' ≠ k →
      getRow (unlock clock k token md s).2.table k' = getRow s.table k') ∧
    (match getRow s.table k with
     | none => (unlock clock k token md s).2.table = s.table
     | some r =>
       if r.lock_token = token then
         getRow (unlock clock k token md s).2.table k
           = some ⟨r.value, 0, r.locked_until⟩
       else (unlock clock k token md s).2.table = s.table) ∧
    ((unlock clock k token md ((unlock clock k token md s).2)).2.table
      = (unlock clock k token md s).2.table) := by
  rcases hg : getRow s.table k with _ | r
  · have h1 : unlock clock k token md s = (.ok (), s) := by
      rw [unlock_eq]; simp [hg]
    refine ⟨by rw [h1], fun k' _ => by rw [h1], ?_, ?_⟩
    · simp only [hg]
      rw [h1]
    · rw [h1]
      rw [h1]
  · by_cases ht : r.lock_token = token
    · have h1 : unlock clock k token md s
          = (.ok (), ⟨(update_row s.table k ⟨none, some 0, none⟩).1, s.tick + 1⟩) := by
        rw [unlock_eq]; simp [hg, ht]
      have hupd : getRow (update_row s.table k ⟨none, some 0, none⟩).1 k
          = some ⟨r.value, 0, r.locked_until⟩ := by
        rw [getRow_update_row_self, hg]; simp [applyPatch]
      have h2 : unlock clock k token md
            (⟨(update_row s.table k ⟨none, some 0, none⟩).1, s.tick + 1⟩ : St)
          = (.ok (), ⟨(update_row s.table k ⟨none, some 0, none⟩).1, s.tick + 1 + 1⟩) := by
        rw [unlock_eq]
        simp only [hupd]
        simp [Ne.symm h]
      refine ⟨by rw [h1], fun k' hk => by rw [h1]; exact getRow_update_row_ne _ hk, ?_, ?_⟩
      · simp only [hg, ht, if_true]
        rw [h1]
        exact hupd
      · rw [h1, h2]
    · have h1 : unlock clock k token md s = (.ok (), ⟨s.table, s.tick + 1⟩) := by
        rw [unlock_eq]; simp [hg, ht]
      have h2 : unlock clock k token md (⟨s.table, s.tick + 1⟩ : St)
          = (.ok (), ⟨s.table, s.tick + 1 + 1⟩) := by
        rw [unlock_eq]; simp [hg, ht]
      refine ⟨by rw [h1], fun k' _ => by rw [h1], ?_, ?_⟩
      · simp only [hg]
        simp only [ht, if_false, if_neg]
        rw [h1]
      · rw [h1, h2]

theorem unlock_spec_witness :
    (5 : ℚ) ≠ 0 ∧
    getRow (unlock clk0 "k" 5 0 ⟨[("k", ⟨none, 5, 100⟩)], 0⟩).2.table "k"
      = some ⟨none, 0, 100⟩ := by
  have h := unlock_spec clk0 "k" 5 0 ⟨[("k", ⟨none, 5, 100⟩)], 0⟩ (by norm_num)
  refine ⟨by norm_num, ?_⟩
  have h3 := h.2.2.1
  simpa [getRow] using h3

theorem ask_access_eq' (clock : Nat → ℚ) (k : String) (token md : ℚ) (s : St) :
    ask_access clock k token md s =
      if eligible clock s k token then (.ok true, grantState clock s k token md)
      else (.ok false, ⟨s.table, s.tick + 1⟩) := by
  rw [ask_access_eq]; rfl

theorem unlock_fst (clock : Nat → ℚ) (k : String) (token md : ℚ) (s : St) :
    (unlock clock k token md s).1 = .ok () := by
  rw [unlock_eq]
  rcases hg : getRow s.table k with _ | r
  · simp
  · by_cases ht : r.lock_token = token <;> simp [ht]

theorem unlockAll_single (clock : Nat → ℚ) (k : String) (token md : ℚ) (s : St) :
    unlockAll clock [k] token md s = (.ok (), (unlock clock k token md s).2) := by
  unfold unlockAll
  rcases h : unlock clock k token md s with ⟨res, s'⟩
  have h1 := unlock_fst clock k token md s
  rw [h] at h1
  simp only at h1
  subst h1
  simp [unlockAll]

theorem acquireLoop_single (clock : Nat → ℚ) (k : String) (token : ℚ) (s : St) :
    acquireLoop clock [k] token s =
      if eligible clock s k token then (.ok (), grantState clock s k token 0)
      else (.error (.tokenError k token), ⟨s.table, s.tick + 1⟩) := by
  unfold acquireLoop
  rw [ask_access_eq']
  by_cases he : eligible clock s k token
  · simp [he, acquireLoop]
  · simp [he]

theorem set_row_value_ok (t : Table) (k : String) (c : Option JVal)
    (h : (getRow t k).isSome) :
    (set_row t k ⟨some c, none, none⟩).1 = .ok () := by
  unfold set_row
  simp [update_row_snd_eq, h]

theorem getRow_grantState (clock : Nat → ℚ) (s : St) (k : String) (token md : ℚ) :
    (getRow (grantState clock s k token md).table k).map Row.lock_token
      = some token := by
  unfold grantState
  exact getRow_set_row_lock _ _ _ _

theorem eligible_false_elim (clock : Nat → ℚ) (s : St) (k : String) (token : ℚ)
    (he : eligible clock s k token = false) :
    ∃ r, getRow s.table k = some r ∧ ¬ r.lock_token = 0 ∧
      ¬ clock s.tick > r.locked_until ∧ ¬ r.lock_token = token := by
  unfold eligible at he
  rcases hg : getRow s.table k with _ | r
  · rw [hg] at he; simp at he
  · rw [hg] at he
    by_cases h0 : r.lock_token = 0
    · simp [h0] at he
    · by_cases h1 : clock s.tick > r.locked_until
      · simp [h0, h1] at he
      · by_cases h2 : r.lock_token = token
        · simp [h0, h1, h2] at he
        · exact ⟨r, rfl, h0, h1, h2⟩


theorem isSome_of_map_lock {t : Table} {k : String} {tok : ℚ}
    (h : (getRow t k).map Row.lock_token = some tok) : (getRow t k).isSome := by
  cases hg : getRow t k
  · rw [hg] at h; simp at h
  · simp

theorem assert_single_granted {α : Type} (clock : Nat → ℚ) (k : String)
    (token : ℚ) (unl : Bool) (body : St → Except Err α × St) (s : St)
    (he : eligible clock s k token = true) :
    assert_token clock [k] token unl body s =
      (match (if unl
          then unlockAll clock [k] token 0 (body (grantState clock s k token 0)).2
          else (.ok (), (body (grantState clock s k token 0)).2)) with
        | (.error e, s3) => (.error e, s3)
        | (.ok _, s3) => ((body (grantState clock s k token 0)).1, s3)) := by
  unfold assert_token
  rw [acquireLoop_single]
  simp [he, List.isEmpty]

theorem assert_single_denied {α : Type} (clock : Nat → ℚ) (k : String)
    (token : ℚ) (unl : Bool) (body : St → Except Err α × St) (s : St)
    (he : eligible clock s k token = false) :
    assert_token clock [k] token unl body s =
      (match (if unl
          then unlockAll clock [k] token 0 (⟨s.table, s.tick + 1⟩ : St)
          else (.ok (), (⟨s.table, s.tick + 1⟩ : St))) with
        | (.error e, s3) => (.error e, s3)
        | (.ok _, s3) => (.error (.tokenError k token), s3)) := by
  unfold assert_token
  rw [acquireLoop_single]
  simp [he, List.isEmpty]

/-- C4 (amended): `set(key, value, token)` raises `EasySQLiteTokenError`
exactly when the eligibility test fails at its initial read, i.e. a row for
the key exists whose `lock_token` is neither `0` nor the presented token
and whose lease is unexpired — a different holder currently owns the key;
in that failure case no write occurs (the table is unchanged).  Otherwise
(key absent, unlocked, expired, or owned by this token) `set` succeeds —
so, contrary to the claim as stated, a never-acquired or already-released
token is accepted on an unlocked key. -/
theorem set_token_error_iff (clock : Nat → ℚ) (k : String) (v : JVal)
    (token : ℚ) (s : St) :
    ((set clock k v token s).1 = .error (.tokenError k token) ↔
      eligible clock s k token = false) ∧
    (eligible clock s k token = false →
      (set clock k v token s).2.table = s.table) ∧
    (eligible clock s k token = true →
      (set clock k v token s).1 = .ok ()) := by
  by_cases he : eligible clock s k token
  · have hsome : (getRow (grantState clock s k token 0).table k).isSome :=
      isSome_of_map_lock (getRow_grantState clock s k token 0)
    have hbody := set_row_value_ok (grantState clock s k token 0).table k
      (some v) hsome
    unfold set
    rw [assert_single_granted _ _ _ _ _ _ he]
    simp only
    unfold set_assuming_token
    rcases hb : set_row (grantState clock s k token 0).table k
        ⟨some (some v), none, none⟩ with ⟨res, t'⟩
    rw [hb] at hbody
    simp only at hbody
    subst hbody
    rw [unlockAll_single]
    simp [he]
  · have he' : eligible clock s k token = false := by simpa using he
    obtain ⟨r, hg, h0, h1, h2⟩ := eligible_false_elim clock s k token he'
    unfold set
    rw [assert_single_denied _ _ _ _ _ _ he']
    rw [unlockAll_single]
    have hu : unlock clock k token 0 (⟨s.table, s.tick + 1⟩ : St)
        = (.ok (), ⟨s.table, s.tick + 1 + 1⟩) := by
      rw [unlock_eq]
      simp [hg, h2]
    rw [hu]
    simp [he']

theorem set_token_error_iff_witness :
    eligible clk0 ⟨[("k", ⟨none, 7, 100⟩)], 0⟩ "k" 5 = false ∧
    (set clk0 "k" (.num 1) 5 ⟨[("k", ⟨none, 7, 100⟩)], 0⟩).2.table
      = [("k", ⟨none, 7, 100⟩)] := by
  have h := set_token_error_iff clk0 "k" (.num 1) 5 ⟨[("k", ⟨none, 7, 100⟩)], 0⟩
  exact ⟨by decide, h.2.1 (by decide)⟩

/-- C4 (counterexample): on an empty table the presented token `5` does
not currently own key `"k"` (no row exists — it was never acquired), yet
`set` completes without raising the token-invalid error, refuting "raises
exactly when the presented token does not currently own the key". -/
theorem set_accepts_foreign_token :
    getRow ([] : Table) "k" = none ∧
    (set clk0 "k" (.num 1) 5 ⟨[], 0⟩).1 = .ok () := by
  constructor
  · rfl
  · norm_num [set, assert_token, acquireLoop, ask_access, current_lock, getRow,
      readTime, set_row, update_row, insert_row, applyPatch, unlockAll, unlock,
      set_assuming_token, clk0, List.isEmpty]

/-- C3: contrary to the claim, `ask_set` and `ask_del` do NOT return
whether the write happened: on an uncontended key the write happens (the
value is stored, resp. the row is deleted) and yet both return `False`,
because both Python paths end in `return False` with no `return True` on
the success branch. -/
theorem ask_ops_always_return_false :
    (ask_set clk0 "a" (.num 7) (3/2) ⟨[], 0⟩).1 = .ok false ∧
    getItem (ask_set clk0 "a" (.num 7) (3/2) ⟨[], 0⟩).2.table "a" = .ok (.num 7) ∧
    (ask_del clk0 "a" (3/2) ⟨[("a", ⟨some (.num 7), 0, 0⟩)], 0⟩).1 = .ok false ∧
    getRow (ask_del clk0 "a" (3/2) ⟨[("a", ⟨some (.num 7), 0, 0⟩)], 0⟩).2.table "a"
      = none := by
  refine ⟨?_, ?_, ?_, ?_⟩ <;>
    norm_num [ask_set, ask_del, ask_token, attemptAll, ask_access, current_lock,
      getRow, readTime, set_row, update_row, insert_row, applyPatch, unlockAll,
      unlock, set_assuming_token, del_assuming_token, del_row, getItem, clk0,
      List.isEmpty]

theorem stepState_table (s : St) (k : String) : (stepState s k).table = s.table := by
  unfold stepState
  rcases getRow s.table k with _ | r
  · rfl
  · by_cases h0 : r.lock_token = 0 <;> simp [h0]

theorem getRow_set_row_lock_row (t : Table) (k : String) (tok u : ℚ) :
    getRow (set_row t k ⟨none, some tok, some u⟩).2 k
      = some ⟨(getRow t k).bind Row.value, tok, u⟩ := by
  unfold set_row insert_row
  rcases h : getRow t k with _ | r
  · simp [update_row_snd_eq, h, update_row_fst_of_getRow_none, getRow_append_self _ h]
  · simp [update_row_snd_eq, h, getRow_update_row_self, applyPatch]

/-- C9: token verification is not read-only — whenever Verify-held
(`assert_token`'s per-key check, `_ask_access` with `max_duration = 0`)
succeeds, it performs the step-3 upsert: the resulting table is exactly the
input table with the lock row written through `set_row` (`lock_token =
token`, `locked_until = now + 0`) — also in the renewal case where the row
already held the presented token — and the written row reads `lock_token =
token` and `locked_until = clock (stepState s k).tick`, which is precisely
the clock value returned by the upsert's `time.time()` call (the current
time): a successful verification marks the lease as expiring now.  The
`value` cell is preserved, and the final tick count confirms that clock
read took place. -/
theorem verify_writes_lease (clock : Nat → ℚ) (k : String) (token : ℚ) (s : St)
    (h : (ask_access clock k token 0 s).1 = .ok true) :
    (ask_access clock k token 0 s).2.table
      = (set_row s.table k
          ⟨none, some token, some (clock (stepState s k).tick + 0)⟩).2 ∧
    getRow (ask_access clock k token 0 s).2.table k
      = some ⟨(getRow s.table k).bind Row.value, token,
          clock (stepState s k).tick⟩ ∧
    (ask_access clock k token 0 s).2.tick = (stepState s k).tick + 1 := by
  rw [ask_access_eq'] at h ⊢
  by_cases he : eligible clock s k token
  · simp only [he, if_true]
    unfold grantState
    rw [stepState_table]
    refine ⟨rfl, ?_, rfl⟩
    rw [getRow_set_row_lock_row, add_zero]
  · rw [if_neg (by simp [he])] at h
    simp at h

theorem verify_writes_lease_witness :
    (ask_access clk0 "k" 5 0 ⟨[], 0⟩).1 = .ok true ∧
    getRow (ask_access clk0 "k" 5 0 ⟨[], 0⟩).2.table "k" = some ⟨none, 5, 0⟩ := by
  have h1 : (ask_access clk0 "k" 5 0 ⟨[], 0⟩).1 = .ok true := by
    norm_num [ask_access, current_lock, getRow, readTime, set_row, update_row,
      insert_row, applyPatch, clk0]
  have h2 := (verify_writes_lease clk0 "k" 5 ⟨[], 0⟩ h1).2.1
  simp only [clk0] at h2
  exact ⟨h1, h2⟩


theorem getRow_set_row_value (t : Table) (k : String) (c : Option JVal) (r : Row)
    (h : getRow t k = some r) :
    getRow (set_row t k ⟨some c, none, none⟩).2 k
      = some ⟨c, r.lock_token, r.locked_until⟩ := by
  unfold set_row
  simp [update_row_snd_eq, h, getRow_update_row_self, applyPatch]

/-- Closed form of a granted run of `set`: acquire (verify) upserts the
lock, the body overwrites the value cell, and the final unconditional
release resets `lock_token` to `0`. -/
theorem set_eq_granted (clock : Nat → ℚ) (k : String) (v : JVal) (token : ℚ)
    (s : St) (he : eligible clock s k token = true) :
    set clock k v token s =
      (.ok (),
        ⟨(update_row
            (set_row (grantState clock s k token 0).table k
              ⟨some (some v), none, none⟩).2 k ⟨none, some 0, none⟩).1,
          (grantState clock s k token 0).tick + 1⟩) := by
  have hG : getRow (grantState clock s k token 0).table k
      = some ⟨(getRow (stepState s k).table k).bind Row.value, token,
          clock (stepState s k).tick + 0⟩ :=
    getRow_set_row_lock_row (stepState s k).table k token
      (clock (stepState s k).tick + 0)
  have hone := set_row_value_ok (grantState clock s k token 0).table k
    (some v) (isSome_of_map_lock (getRow_grantState clock s k token 0))
  have hB := getRow_set_row_value (grantState clock s k token 0).table k
    (some v) _ hG
  unfold set
  rw [assert_single_granted _ _ _ _ _ _ he]
  rw [unlockAll_single]
  unfold set_assuming_token
  rcases hsr : set_row (grantState clock s k token 0).table k
      ⟨some (some v), none, none⟩ with ⟨res, t2⟩
  rw [hsr] at hone hB
  simp only at hone
  subst hone
  have hu : unlock clock k token 0
        (⟨t2, (grantState clock s k token 0).tick⟩ : St)
      = (.ok (), ⟨(update_row t2 k ⟨none, some 0, none⟩).1,
          (grantState clock s k token 0).tick + 1⟩) := by
    rw [unlock_eq]
    simp [hB]
  simp [hu]

/-- C7: for every JSON-representable value `v` (including `null`), after
a successful guarded write `set(k, v, token)`, reading `k` returns `v`;
and a stored `null` is distinguished from the absence of any value for
`k`, which surfaces as `KeyError`. -/
theorem set_get_roundtrip (clock : Nat → ℚ) (k : String) (v : JVal)
    (token : ℚ) (s : St) :
    ((set clock k v token s).1 = .ok () →
      getItem (set clock k v token s).2.table k = .ok v) ∧
    (getRow s.table k = none → getItem s.table k = .error (.keyError k)) := by
  constructor
  · intro h
    by_cases he : eligible clock s k token
    · have hG : getRow (grantState clock s k token 0).table k
          = some ⟨(getRow (stepState s k).table k).bind Row.value, token,
              clock (stepState s k).tick + 0⟩ :=
        getRow_set_row_lock_row (stepState s k).table k token
          (clock (stepState s k).tick + 0)
      have hB := getRow_set_row_value (grantState clock s k token 0).table k
        (some v) _ hG
      rw [set_eq_granted clock k v token s he]
      simp only [getItem]
      rw [getRow_update_row_self, hB]
      simp [applyPatch]
    · exfalso
      unfold set at h
      rw [assert_single_denied _ _ _ _ _ _ (by simpa using he)] at h
      rw [unlockAll_single] at h
      rcases hu : unlock clock k token 0 (⟨s.table, s.tick + 1⟩ : St) with ⟨res, s3⟩
      have hf := unlock_fst clock k token 0 (⟨s.table, s.tick + 1⟩ : St)
      rw [hu] at hf
      simp only at hf
      subst hf
      rw [hu] at h
      simp at h
  · intro h
    unfold getItem
    simp [h]

theorem set_get_roundtrip_witness :
    ((set clk0 "k" .null 5 ⟨[], 0⟩).1 = .ok () ∧
      getItem (set clk0 "k" .null 5 ⟨[], 0⟩).2.table "k" = .ok .null) ∧
    getItem ([] : Table) "k" = .error (.keyError "k") := by
  have h := set_get_roundtrip clk0 "k" .null 5 ⟨[], 0⟩
  have h1 : (set clk0 "k" .null 5 ⟨[], 0⟩).1 = .ok () := by
    norm_num [set, assert_token, acquireLoop, ask_access, current_lock, getRow,
      readTime, set_row, update_row, insert_row, applyPatch, unlockAll, unlock,
      set_assuming_token, clk0, List.isEmpty]
  exact ⟨⟨h1, h.1 h1⟩, h.2 rfl⟩

theorem eligible_of_own (clock : Nat → ℚ) (s : St) (k : String) (token : ℚ)
    (r : Row) (h1 : getRow s.table k = some r) (h2 : r.lock_token = token) :
    eligible clock s k token = true := by
  unfold eligible
  rw [h1]
  by_cases h0 : r.lock_token = 0
  · simp [h0]
  · by_cases hu : clock s.tick > r.locked_until <;> simp [h0, hu, h2]

/-- C8: for every key and validly held token (the stored `lock_token`
equals the presented token — whatever the `value` cell holds, including no
value ever set), `delete(key, token)` succeeds and removes the entire row,
clearing value and lock state together, so a subsequent read finds the key
absent. -/
theorem delete_held_token (clock : Nat → ℚ) (k : String) (token : ℚ) (s : St)
    (r : Row) (h1 : getRow s.table k = some r) (h2 : r.lock_token = token) :
    (delete clock k token s).1 = .ok () ∧
    getRow (delete clock k token s).2.table k = none := by
  have he := eligible_of_own clock s k token r h1 h2
  unfold delete
  rw [assert_single_granted _ _ _ _ _ _ he]
  simp only
  unfold del_assuming_token
  constructor
  · rfl
  · exact getRow_del_row_self

theorem delete_held_token_witness :
    getRow ([("k", (⟨some (.num 3), 5, 100⟩ : Row))] : Table) "k"
        = some ⟨some (.num 3), 5, 100⟩ ∧
    (delete clk0 "k" 5 ⟨[("k", ⟨some (.num 3), 5, 100⟩)], 0⟩).1 = .ok () ∧
    getRow (delete clk0 "k" 5 ⟨[("k", ⟨some (.num 3), 5, 100⟩)], 0⟩).2.table "k"
      = none := by
  have h := delete_held_token clk0 "k" 5 ⟨[("k", ⟨some (.num 3), 5, 100⟩)], 0⟩
    ⟨some (.num 3), 5, 100⟩ (by decide) (by decide)
  exact ⟨by decide, h.1, h.2⟩

/-- C10: indexing (`__getitem__`) raises `KeyError` if and only if no row
exists for the key; `get(key)` with its default of `None` (= JSON `null`)
returns `null` both when the key is absent and when the stored value is
JSON `null`, so the two cases are indistinguishable through `get` without
a non-None default. -/
theorem getItem_get_null (t : Table) (k : String) (r : Row) :
    (getItem t k = .error (.keyError k) ↔ getRow t k = none) ∧
    (getRow t k = none → get t k .null = .ok .null) ∧
    (getRow t k = some r → r.value = some .null → get t k .null = .ok .null) := by
  refine ⟨?_, ?_, ?_⟩
  · unfold getItem
    rcases h : getRow t k with _ | r'
    · simp
    · simp
  · intro h
    unfold get getItem
    simp [h]
  · intro h hv
    unfold get getItem
    simp [h, hv]

theorem getItem_get_null_witness :
    (getItem ([] : Table) "k" = .error (.keyError "k")) ∧
    get ([] : Table) "k" .null = .ok .null ∧
    get ([("k", (⟨some .null, 0, 0⟩ : Row))] : Table) "k" .null = .ok .null := by
  have h1 := getItem_get_null ([] : Table) "k" ⟨some .null, 0, 0⟩
  have h2 := getItem_get_null ([("k", (⟨some .null, 0, 0⟩ : Row))] : Table) "k"
    ⟨some .null, 0, 0⟩
  exact ⟨h1.1.mpr rfl, h1.2.1 rfl, h2.2.2 (by decide) rfl⟩


theorem ask_access_ok (clock : Nat → ℚ) (k : String) (token md : ℚ) (s : St) :
    ∃ b s1, ask_access clock k token md s = (.ok b, s1) := by
  rw [ask_access_eq']
  by_cases he : eligible clock s k token
  · refine ⟨true, grantState clock s k token md, ?_⟩
    simp [he]
  · refine ⟨false, ⟨s.table, s.tick + 1⟩, ?_⟩
    simp [he]

theorem attemptAll_ok (clock : Nat → ℚ) (keys : List String) (token md : ℚ)
    (s : St) :
    ∃ bs st1, attemptAll clock keys token md s = (.ok bs, st1) ∧
      bs.length = keys.length := by
  induction keys generalizing s with
  | nil => exact ⟨[], s, rfl, rfl⟩
  | cons k ks ih =>
    obtain ⟨b1, s1, hacc⟩ := ask_access_ok clock k token md s
    obtain ⟨bs', st1, hA, hlen⟩ := ih s1
    refine ⟨b1 :: bs', st1, ?_, by simp [hlen]⟩
    unfold attemptAll
    rw [hacc]
    simp [hA]

theorem unlockAll_ok (clock : Nat → ℚ) (keys : List String) (token md : ℚ)
    (s : St) :
    ∃ s2, unlockAll clock keys token md s = (.ok (), s2) := by
  induction keys generalizing s with
  | nil => exact ⟨s, rfl⟩
  | cons k ks ih =>
    obtain ⟨s2, hU⟩ := ih (unlock clock k token md s).2
    refine ⟨s2, ?_⟩
    unfold unlockAll
    rcases hu : unlock clock k token md s with ⟨res, s1⟩
    have hf := unlock_fst clock k token md s
    rw [hu] at hf
    simp only at hf
    subst hf
    rw [hu] at hU
    simp only at hU
    exact hU

theorem unlock_released (clock : Nat → ℚ) (k : String) (token md : ℚ) (s : St)
    (h0 : token ≠ 0) :
    ∀ r, getRow (unlock clock k token md s).2.table k = some r →
      r.lock_token ≠ token := by
  intro r hr
  rw [unlock_eq] at hr
  rcases hg : getRow s.table k with _ | rr
  · simp only [hg] at hr
    cases hr
  · simp only [hg] at hr
    by_cases ht : rr.lock_token = token
    · simp only [ht, if_true] at hr
      rw [getRow_update_row_self, hg] at hr
      simp only [Option.map_some'] at hr
      obtain rfl := Option.some.inj hr
      simp only [applyPatch, Option.getD]
      exact Ne.symm h0
    · simp only [ht, if_false] at hr
      rw [hg] at hr
      obtain rfl := Option.some.inj hr
      exact ht


theorem unlock_other (clock : Nat → ℚ) (k k' : String) (token md : ℚ) (s : St)
    (h : k' ≠ k) :
    getRow (unlock clock k token md s).2.table k' = getRow s.table k' := by
  rw [unlock_eq]
  rcases hg : getRow s.table k with _ | rr
  · rfl
  · by_cases ht : rr.lock_token = token
    · simp only [ht, if_true]
      exact getRow_update_row_ne _ h
    · simp [ht]

theorem unlockAll_other (clock : Nat → ℚ) (keys : List String) (k' : String)
    (token md : ℚ) (s : St) (h : k' ∉ keys) :
    getRow (unlockAll clock keys token md s).2.table k' = getRow s.table k' := by
  induction keys generalizing s with
  | nil => rfl
  | cons k ks ih =>
    have hk : k' ≠ k := fun e => h (by simp [e])
    have hks : k' ∉ ks := fun e => h (by simp [e])
    unfold unlockAll
    rcases hu : unlock clock k token md s with ⟨res, s1⟩
    have hf := unlock_fst clock k token md s
    rw [hu] at hf
    simp only at hf
    subst hf
    simp only
    rw [ih s1 hks]
    have := unlock_other clock k k' token md s hk
    rw [hu] at this
    exact this

theorem unlockAll_released (clock : Nat → ℚ) (keys : List String)
    (token md : ℚ) (s : St) (h0 : token ≠ 0) :
    ∀ k ∈ keys, ∀ r,
      getRow (unlockAll clock keys token md s).2.table k = some r →
      r.lock_token ≠ token := by
  induction keys generalizing s with
  | nil => intro k hk; cases hk
  | cons k1 ks ih =>
    intro k hk r hr
    unfold unlockAll at hr
    rcases hu : unlock clock k1 token md s with ⟨res, s1⟩
    have hf := unlock_fst clock k1 token md s
    rw [hu] at hf
    simp only at hf
    subst hf
    rw [hu] at hr
    simp only at hr
    rcases List.mem_cons.mp hk with h1 | h2
    · by_cases hks : k ∈ ks
      · exact ih s1 k hks r hr
      · subst h1
        rw [unlockAll_other clock ks k token md s1 hks] at hr
        have := unlock_released clock k token md s h0 r
        rw [hu] at this
        exact this hr
    · exact ih s1 k h2 r hr


/-- C5: for every non-empty list of keys, Acquire-many (`ask_token`, with
its freshly drawn token in `[1, 2)`) evaluates Acquire-one on every key in
the given order without short-circuiting after a failure — the result list
has one entry per key, and the head unfolding shows the remaining keys
are attempted from the post-state of the first attempt whatever its
result; it yields the token exactly when every per-key acquisition
succeeded (the logical AND of all per-key results, else `None`), and on
exit every key in the set has been released: no key's row still carries
this token. -/
theorem ask_token_spec (clock : Nat → ℚ) (keys : List String) (md token : ℚ)
    (s : St) (hne : keys ≠ []) (h1 : 1 ≤ token) (h2 : token < 2) :
    ∃ bs st1,
      attemptAll clock keys token md s = (.ok bs, st1) ∧
      bs.length = keys.length ∧
      (∀ k' ks', keys = k' :: ks' → ∃ b1 s1 bs',
        ask_access clock k' token md s = (.ok b1, s1) ∧
        (attemptAll clock ks' token md s1).1 = .ok bs' ∧
        bs = b1 :: bs') ∧
      (ask_token clock keys md true token (fun t s' => (.ok t, s')) s).1
        = .ok (if bs.all (fun b => b) then some token else none) ∧
      (∀ k ∈ keys, ∀ r,
        getRow (ask_token clock keys md true token
            (fun t s' => (.ok t, s')) s).2.table k = some r →
        r.lock_token ≠ token) := by
  have h0 : token ≠ 0 := by
    intro e
    rw [e] at h1
    exact absurd h1 (by norm_num)
  rcases keys with _ | ⟨k0, ks0⟩
  · exact absurd rfl hne
  obtain ⟨b1, s1, hacc⟩ := ask_access_ok clock k0 token md s
  obtain ⟨bs', st1, hA', hlen'⟩ := attemptAll_ok clock ks0 token md s1
  have hA : attemptAll clock (k0 :: ks0) token md s = (.ok (b1 :: bs'), st1) := by
    unfold attemptAll
    rw [hacc]
    simp [hA']
  obtain ⟨s2, hU⟩ := unlockAll_ok clock (k0 :: ks0) token md st1
  have hrun : ask_token clock (k0 :: ks0) md true token
      (fun t s' => (.ok t, s')) s =
      (.ok (if (b1 :: bs').all (fun b => b) then some token else none), s2) := by
    unfold ask_token
    rw [hA]
    simp only [List.isEmpty]
    rw [hU]
    simp
  refine ⟨b1 :: bs', st1, hA, by simp [hlen'], ?_, ?_, ?_⟩
  · intro k' ks' he
    obtain ⟨hk, hks⟩ := List.cons.inj he
    subst hk; subst hks
    exact ⟨b1, s1, bs', hacc, by rw [hA'], rfl⟩
  · rw [hrun]
  · intro k hk r hr
    rw [hrun] at hr
    simp only at hr
    have := unlockAll_released clock (k0 :: ks0) token md st1 h0 k hk r
    rw [hU] at this
    exact this hr

theorem ask_token_spec_witness :
    (ask_token clk0 ["a", "b"] 1 true (3/2) (fun t s' => (.ok t, s')) ⟨[], 0⟩).1
      = .ok (some (3/2)) := by
  obtain ⟨bs, st1, hA, hlen, hhead, hyield, hrel⟩ :=
    ask_token_spec clk0 ["a", "b"] 1 (3/2) ⟨[], 0⟩ (by simp) (by norm_num)
      (by norm_num)
  have hs : ("a" : String) ≠ "b" := by decide
  have hs2 : ("b" : String) ≠ "a" := by decide
  have hcomp : (attemptAll clk0 ["a", "b"] (3/2) 1 ⟨[], 0⟩).1 = .ok [true, true] := by
    norm_num [attemptAll, ask_access, current_lock, getRow, readTime, set_row,
      update_row, insert_row, applyPatch, clk0, hs, hs2]
  rw [hA] at hcomp
  simp only at hcomp
  obtain rfl := Except.ok.inj hcomp
  simpa using hyield


theorem waitLoop_error (clock : Nat → ℚ) (k : String) (token md : ℚ)
    (tv dl : Option ℚ) (fuel : Nat) (s : St) :
    ∀ e s2, waitLoop clock k token md tv dl fuel s = some (.error e, s2) →
      e = .timeoutError tv ∧ ∃ n, beyond (clock n) dl = true := by
  induction fuel generalizing s with
  | zero => intro e s2 h; cases h
  | succ fuel ih =>
    intro e s2 h
    unfold waitLoop at h
    obtain ⟨b, s1, hacc⟩ := ask_access_ok clock k token md s
    rw [hacc] at h
    cases b
    · simp only at h
      by_cases hb : beyond (clock s1.tick) dl
      · simp only [readTime, hb, if_true] at h
        obtain ⟨he, _⟩ := Prod.mk.inj (Option.some.inj h)
        exact ⟨(Except.error.inj he).symm ▸ rfl, s1.tick, hb⟩
      · simp only [readTime, hb, if_false] at h
        rw [if_neg (by simp [hb])] at h
        exact ih _ e s2 h
    · simp only at h
      cases Option.some.inj h


theorem waitKeys_error (clock : Nat → ℚ) (keys : List String) (token md : ℚ)
    (tv : Option ℚ) (fuel : Nat) (s : St) :
    ∀ e s2, waitKeys clock keys token md tv fuel s = some (.error e, s2) →
      ∃ v, tv = some v ∧ e = .timeoutError tv ∧
        ∃ n0 n1, clock n1 > clock n0 + v := by
  induction keys generalizing s with
  | nil => intro e s2 h; cases Option.some.inj h
  | cons k ks ih =>
    intro e s2 h
    unfold waitKeys at h
    rcases htv : tv with _ | v
    · subst htv
      simp only [create_deadline] at h
      rcases hw : waitLoop clock k token md none none fuel s with _ | ⟨r, s3⟩
      · rw [hw] at h; cases h
      · rw [hw] at h
        rcases r with e' | u
        · obtain ⟨_, ⟨n, hb⟩⟩ := waitLoop_error clock k token md none none fuel s e' s3 hw
          cases hb
        · exact ih _ e s2 h
    · subst htv
      simp only [create_deadline, readTime] at h
      rcases hw : waitLoop clock k token md (some v)
          (some (clock s.tick + v)) fuel ⟨s.table, s.tick + 1⟩ with _ | ⟨r, s3⟩
      · rw [hw] at h; cases h
      · rw [hw] at h
        rcases r with e' | u
        · obtain ⟨he, ⟨n, hb⟩⟩ := waitLoop_error clock k token md (some v)
            (some (clock s.tick + v)) fuel ⟨s.table, s.tick + 1⟩ e' s3 hw
          obtain ⟨he2, _⟩ := Prod.mk.inj (Option.some.inj h)
          refine ⟨v, rfl, ?_, s.tick, n, ?_⟩
          · rw [← (Except.error.inj he2), he]
          · simpa [beyond] using hb
        · exact ih _ e s2 h


/-- C6: Blocking-wait processes each key independently and in order: the
acquisition phase of `wait_token` handles the head key with a deadline
`now + timeout` computed fresh at the start of processing that key (conjunct
two: the deadline built by `create_deadline` is the clock reading at that
moment plus the timeout, or infinite when `timeout is None`) before
recursing on the remaining keys; it repeatedly calls Acquire-one, and when
an attempt fails and the following clock reading exceeds the key's own
deadline it raises exactly `EasySQLiteTimeoutError` (conjunct four);
conversely every error of the acquisition phase is that timeout error,
arising only with a finite timeout whose fresh per-key deadline some
later clock reading exceeded, and `wait_token` propagates it after the
`finally` release. -/
theorem wait_token_per_key (clock : Nat → ℚ) (k : String) (ks : List String)
    (token md re : ℚ) (tv : Option ℚ) (fuel : Nat) (s : St) :
    (waitKeys clock (k :: ks) token md tv fuel s =
      match waitLoop clock k token md tv (create_deadline clock tv s).1 fuel
          (create_deadline clock tv s).2 with
      | none => none
      | some (.error e, s2) => some (.error e, s2)
      | some (.ok _, s2) => waitKeys clock ks token md tv fuel s2) ∧
    ((create_deadline clock tv s).1 = tv.map (fun v => clock s.tick + v)) ∧
    (∀ e s2, waitKeys clock (k :: ks) token md tv fuel s = some (.error e, s2) →
      ∃ v, tv = some v ∧ e = .timeoutError tv ∧
        ∃ n0 n1, clock n1 > clock n0 + v) ∧
    (∀ dl s0, (ask_access clock k token md s0).1 = .ok false →
      beyond (clock ((ask_access clock k token md s0).2.tick)) dl = true →
      waitLoop clock k token md tv dl (fuel + 1) s0
        = some (.error (.timeoutError tv),
            ⟨(ask_access clock k token md s0).2.table,
              (ask_access clock k token md s0).2.tick + 1⟩)) ∧
    (∀ (α : Type) (body : ℚ → St → Except Err α × St) e s2,
      waitKeys clock (k :: ks) token md tv fuel s = some (.error e, s2) →
      ∃ s3, wait_token clock (k :: ks) md re tv token true fuel body s
        = some (.error e, s3)) := by
  refine ⟨?_, ?_, waitKeys_error clock (k :: ks) token md tv fuel s, ?_, ?_⟩
  · conv_lhs => rw [waitKeys]
  · rcases tv with _ | v <;> simp [create_deadline, readTime]
  · intro dl s0 hfail hb
    rcases hacc : ask_access clock k token md s0 with ⟨res, s1⟩
    rw [hacc] at hfail hb
    simp only at hfail hb
    subst hfail
    unfold waitLoop
    rw [hacc]
    simp only [readTime]
    rw [if_pos (by simpa using hb)]
  · intro α body e s2 h
    obtain ⟨s4, hU⟩ := unlockAll_ok clock (k :: ks) token md s2
    refine ⟨s4, ?_⟩
    unfold wait_token
    rw [h]
    simp only [List.isEmpty]
    rw [hU]
    simp


theorem wait_token_per_key_witness :
    (ask_access clkN "k" 5 0 ⟨[("k", ⟨none, 7, 1000⟩)], 0⟩).1 = .ok false ∧
    waitLoop clkN "k" 5 0 (some 0) (some 0) (0 + 1) ⟨[("k", ⟨none, 7, 1000⟩)], 0⟩
      = some (.error (.timeoutError (some 0)), ⟨[("k", ⟨none, 7, 1000⟩)], 1 + 1⟩) := by
  have hfail : (ask_access clkN "k" 5 0 ⟨[("k", ⟨none, 7, 1000⟩)], 0⟩).1
      = .ok false := by
    norm_num [ask_access, current_lock, getRow, readTime, clkN]
  have hstate : (ask_access clkN "k" 5 0 ⟨[("k", ⟨none, 7, 1000⟩)], 0⟩).2
      = ⟨[("k", ⟨none, 7, 1000⟩)], 1⟩ := by
    norm_num [ask_access, current_lock, getRow, readTime, clkN]
  have h := (wait_token_per_key clkN "k" [] 5 0 0 (some 0) 0
      ⟨[("k", ⟨none, 7, 1000⟩)], 0⟩).2.2.2.1 (some 0)
      ⟨[("k", ⟨none, 7, 1000⟩)], 0⟩ hfail
      (by rw [hstate]; norm_num [beyond, clkN])
  rw [hstate] at h
  exact ⟨hfail, h⟩

end EasySQLite
